import Mathlib

/-!
Verification development for the Traffic-Signal-Optimization core
(`simulation/traffic_simulator.py`, `simulation/queue_model.py`,
`optimization/genetic_algorithm.py`, `optimization/fitness_functions.py`).

Python floats are modelled exactly by `ℚ`; Python `int` by `ℤ`/`ℕ`.
The global pseudo-random generators (`random`, `np.random`) are modelled by
an explicit deterministic stream of natural numbers threaded through every
stochastic operation: a draw reads the stream at the current index and
advances the index, and seeding replaces the whole stream by one derived
from the seed.  Theorems about runs quantify over arbitrary streams, which
includes the behaviour of the concrete Mersenne-Twister generators.
Each draw lands in the support of the distribution it models.
Python `while` loops whose termination depends on drawn values are given
explicit fuel and return `Option`, with `none` modelling non-termination.
-/

namespace TrafficOpt

/-! ## Pseudo-random source -/

/-- A deterministic stream of raw draws together with a cursor. -/
structure Rng where
  stream : ℕ → ℕ
  idx : ℕ

/-- One step of a linear congruential generator modulo `2 ^ 64`;
stands in for the Mersenne-Twister state update. -/
def lcgStep (s : ℕ) : ℕ :=
  (6364136223846793005 * s + 1442695040888963407) % 18446744073709551616

/-- The raw stream obtained from a seed. -/
def lcgStream (seed : ℕ) : ℕ → ℕ
  | 0 => lcgStep seed
  | n + 1 => lcgStep (lcgStream seed n)

/-- Models `random.seed(seed)`: the `random`-module generator is replaced by
a stream that depends only on the seed. -/
def mkRandomRng (seed : ℕ) : Rng := ⟨lcgStream (2 * seed + 1), 0⟩

/-- Models `np.random.seed(seed)`: the NumPy global generator is replaced by
a stream that depends only on the seed. -/
def mkNumpyRng (seed : ℕ) : Rng := ⟨lcgStream (2 * seed), 0⟩

/-- Read the next raw draw and advance the cursor. -/
def Rng.next (r : Rng) : ℕ × Rng :=
  (r.stream r.idx, ⟨r.stream, r.idx + 1⟩)

/-- Models `random.random()`: a value in `[0, 1)`. -/
def Rng.nextUnit (r : Rng) : ℚ × Rng :=
  let (v, r') := r.next
  (((v % 4294967296 : ℕ) : ℚ) / 4294967296, r')

/-- Models `random.uniform(a, b)`. -/
def Rng.uniform (r : Rng) (a b : ℚ) : ℚ × Rng :=
  let (u, r') := r.nextUnit
  (a + (b - a) * u, r')

/-- Models `random.randint(a, b)` (both endpoints included). -/
def Rng.randint (r : Rng) (a b : ℤ) : ℤ × Rng :=
  let (v, r') := r.next
  (a + ((v % (b - a + 1).toNat : ℕ) : ℤ), r')

/-- Models `np.random.normal(0, sd)`: `sd` times a value from the support of
the standard normal distribution. -/
def Rng.normal (r : Rng) (sd : ℚ) : ℚ × Rng :=
  let (v, r') := r.next
  (sd * (((v % 1048576 : ℕ) : ℚ) / 1024 - 512), r')

/-- Models `np.random.exponential(scale)`: `scale` times a positive value
from the support of the unit-rate exponential distribution. -/
def Rng.exponential (r : Rng) (scale : ℚ) : ℚ × Rng :=
  let (v, r') := r.next
  (scale * (((v % 65536 : ℕ) + 1 : ℚ) / 65536), r')

/-- Models drawing an index below `n` (as in `random.choice` on an
`n`-element list). -/
def Rng.below (r : Rng) (n : ℕ) : ℕ × Rng :=
  let (v, r') := r.next
  (v % n, r')

/-- Draw `k` elements without replacement, in draw order. -/
def sampleAux {α : Type _} : ℕ → List α → Rng → List α × Rng
  | 0, _, r => ([], r)
  | k + 1, l, r =>
    let (i, r') := r.below l.length
    match l.get? i with
    | none => ([], r')
    | some x =>
      let (rest, r'') := sampleAux k (l.eraseIdx i) r'
      (x :: rest, r'')

/-- Models `random.sample(l, k)`: `ValueError` (here `none`) when
`k > len(l)`, otherwise `k` distinct positions of `l` in draw order. -/
def Rng.sample {α : Type _} (r : Rng) (l : List α) (k : ℕ) :
    Option (List α) × Rng :=
  if l.length < k then (none, r)
  else
    let (s, r') := sampleAux k l r
    (some s, r')

/-- The ambient global generators of the `random` module and of NumPy,
as they exist before a constructor re-seeds them. -/
structure World where
  randomState : Rng
  numpyState : Rng

/-! ## Signal timing records

`SignalTiming` mirrors the timing dictionaries used throughout the code:
`cycle_length` is an integer (`random.randint`, `int(new_val)`), the green
times are floats, and `yellow_time`/`all_red_time` default to `3.0`/`2.0`. -/

structure SignalTiming where
  cycle_length : ℤ
  green_time_north : ℚ
  green_time_south : ℚ
  green_time_east : ℚ
  green_time_west : ℚ
  yellow_time : ℚ := 3
  all_red_time : ℚ := 2
deriving DecidableEq

/-- Python `int(q)` on a float: truncation toward zero. -/
def pyInt (q : ℚ) : ℤ := if 0 ≤ q then ⌊q⌋ else ⌈q⌉

/-- `GeneticAlgorithm._normalize_green_times`: average the NS pair and the
EW pair, scale both down proportionally when their sum exceeds the available
green (`cycle_length − 2·(yellow + all_red)`), and write the common values
back to both directions of each pair.  (When `total_green = 0` and
`available_green < 0` the Python code would raise `ZeroDivisionError`;
rational division by zero yields `0` here, a case outside every claim.) -/
def normalize_green_times (t : SignalTiming) : SignalTiming :=
  let cycle_length : ℚ := (t.cycle_length : ℚ)
  let lost_time := (t.yellow_time + t.all_red_time) * 2
  let available_green := cycle_length - lost_time
  let ns_green := (t.green_time_north + t.green_time_south) / 2
  let ew_green := (t.green_time_east + t.green_time_west) / 2
  let total_green := ns_green + ew_green
  let scale_factor := available_green / total_green
  let ns_out := if total_green > available_green then ns_green * scale_factor else ns_green
  let ew_out := if total_green > available_green then ew_green * scale_factor else ew_green
  { t with
    green_time_north := ns_out
    green_time_south := ns_out
    green_time_east := ew_out
    green_time_west := ew_out }

/-- `fitness_functions.penalty_for_constraints`, accumulator style exactly as
in the source: minimum-green penalties for the four approaches in order,
then the cycle-length window penalty, then the available-green penalty. -/
def penalty_for_constraints (t : SignalTiming) : ℚ :=
  let p0 : ℚ := 0
  let p1 := if t.green_time_north < 10 then p0 - (10 - t.green_time_north) * 10 else p0
  let p2 := if t.green_time_south < 10 then p1 - (10 - t.green_time_south) * 10 else p1
  let p3 := if t.green_time_east < 10 then p2 - (10 - t.green_time_east) * 10 else p2
  let p4 := if t.green_time_west < 10 then p3 - (10 - t.green_time_west) * 10 else p3
  let p5 := if t.cycle_length < 45 ∨ t.cycle_length > 120 then
      p4 - |((t.cycle_length : ℚ)) - 80| * 5
    else p4
  let total_green := t.green_time_north + t.green_time_south +
    t.green_time_east + t.green_time_west
  let lost_time := (t.yellow_time + t.all_red_time) * 2
  let available_green := (t.cycle_length : ℚ) - lost_time
  if total_green > available_green then p5 - (total_green - available_green) * 20 else p5

/-! ## Queue model -/

/-- Result record of `QueueModel.calculate_delay`. -/
structure DelayMetrics where
  uniform_delay : ℚ
  random_delay : ℚ
  total_delay : ℚ
  saturation : ℚ
deriving DecidableEq

/-- `QueueModel.calculate_delay`: Webster's uniform delay plus a random-delay
component, with fallbacks `0.5·cycle` and `0.25·cycle` when oversaturated;
`x` falls back to `1.0` when the computed capacity is not positive. -/
def calculate_delay (service_rate arrival_rate green_time red_time : ℚ) :
    DelayMetrics :=
  let cycle_length := green_time + red_time
  let capacity := service_rate * green_time / cycle_length
  let x := if capacity > 0 then arrival_rate / capacity else 1
  let uniform_delay :=
    if x < 1 then
      (cycle_length * (1 - green_time / cycle_length) ^ 2) /
        (2 * (1 - x * (green_time / cycle_length)))
    else cycle_length * (1 / 2)
  let random_delay :=
    if x < 1 then (x * x) / (2 * arrival_rate * (1 - x)) else cycle_length * (1 / 4)
  ⟨uniform_delay, random_delay, uniform_delay + random_delay, x⟩

/-- `queue_model.level_of_service`: letter grade from average delay. -/
def level_of_service (delay : ℚ) : Char :=
  if delay ≤ 10 then 'A'
  else if delay ≤ 20 then 'B'
  else if delay ≤ 35 then 'C'
  else if delay ≤ 55 then 'D'
  else if delay ≤ 80 then 'E'
  else 'F'

/-! ## Traffic simulator

Shallow embedding of `TrafficSimulator`.  A run is a pure function of the
signal timing, the saturation flow rate, the NumPy generator state and the
inputs; events are generated, sorted by time (stably, as `list.sort` is
stable), and played back against an `IntersectionState`. -/

inductive Direction
  | N | S | E | W
deriving DecidableEq

inductive Phase
  | NS | EW
deriving DecidableEq

structure Vehicle where
  id : ℕ
  arrival_time : ℚ
  direction : Direction
  departure_time : ℚ := 0
  delay : ℚ := 0
  stops : ℕ := 0
deriving DecidableEq

/-- Payload of a simulation event: a vehicle arrival, or a signal change
carrying the phase label that `_generate_arrivals` attaches (the handler
ignores the label). -/
inductive EventData
  | arrival (v : Vehicle)
  | signal_change (p : Phase)
deriving DecidableEq

/-- A timestamped event, as the `(time, type, data)` tuples of the source. -/
def Event : Type := ℚ × EventData

instance : DecidableEq Event := by
  unfold Event
  infer_instance

/-- `IntersectionState` with the four FIFO queues split into fields. -/
structure SimState where
  current_time : ℚ := 0
  current_phase : Phase := .NS
  phase_start_time : ℚ := 0
  queueN : List Vehicle := []
  queueS : List Vehicle := []
  queueE : List Vehicle := []
  queueW : List Vehicle := []
  vehicles_processed : List Vehicle := []
deriving DecidableEq

/-- Serve up to `n` vehicles FIFO from a queue, stamping departure time and
delay, appending them to the processed list. -/
def serveFromQueue (t : ℚ) : ℕ → List Vehicle → List Vehicle →
    List Vehicle × List Vehicle
  | 0, q, proc => (q, proc)
  | _ + 1, [], proc => ([], proc)
  | n + 1, v :: rest, proc =>
    serveFromQueue t n rest
      (proc ++ [{ v with departure_time := t, delay := t - v.arrival_time }])

/-- `vehicles_to_serve = min(len(queue), service_capacity)` where a negative
capacity serves nobody (`range` of a negative number is empty). -/
def serveCount (q : List Vehicle) (capacity : ℤ) : ℕ :=
  (min (q.length : ℤ) capacity).toNat

/-- `TrafficSimulator._serve_vehicles`: within the active phase, serve up to
`int(service_rate · remaining_green)` vehicles from each active direction. -/
def serve_vehicles (timing : SignalTiming) (service_rate : ℚ)
    (st : SimState) : SimState :=
  let time_in_phase := st.current_time - st.phase_start_time
  let green_time :=
    match st.current_phase with
    | .NS => timing.green_time_north
    | .EW => timing.green_time_east
  let remaining_green := max 0 (green_time - time_in_phase)
  if remaining_green ≤ 0 then st
  else
    let service_capacity := pyInt (service_rate * remaining_green)
    match st.current_phase with
    | .NS =>
      let (qN, p1) :=
        serveFromQueue st.current_time (serveCount st.queueN service_capacity)
          st.queueN st.vehicles_processed
      let (qS, p2) :=
        serveFromQueue st.current_time (serveCount st.queueS service_capacity)
          st.queueS p1
      { st with queueN := qN, queueS := qS, vehicles_processed := p2 }
    | .EW =>
      let (qE, p1) :=
        serveFromQueue st.current_time (serveCount st.queueE service_capacity)
          st.queueE st.vehicles_processed
      let (qW, p2) :=
        serveFromQueue st.current_time (serveCount st.queueW service_capacity)
          st.queueW p1
      { st with queueE := qE, queueW := qW, vehicles_processed := p2 }

/-- `TrafficSimulator._handle_arrival`: enqueue, then try to serve. -/
def handle_arrival (timing : SignalTiming) (service_rate : ℚ) (v : Vehicle)
    (st : SimState) : SimState :=
  let st' :=
    match v.direction with
    | .N => { st with queueN := st.queueN ++ [v] }
    | .S => { st with queueS := st.queueS ++ [v] }
    | .E => { st with queueE := st.queueE ++ [v] }
    | .W => { st with queueW := st.queueW ++ [v] }
  serve_vehicles timing service_rate st'

/-- `TrafficSimulator._handle_signal_change`: toggle the phase (the event's
phase label is not consulted), reset the phase start, then serve. -/
def handle_signal_change (timing : SignalTiming) (service_rate : ℚ)
    (st : SimState) : SimState :=
  let toggled :=
    match st.current_phase with
    | .NS => Phase.EW
    | .EW => Phase.NS
  serve_vehicles timing service_rate
    { st with current_phase := toggled, phase_start_time := st.current_time }

/-- Event playback loop of `run_simulation`: advance `current_time` to each
event's timestamp and dispatch on its type. -/
def processEvents (timing : SignalTiming) (service_rate : ℚ)
    (events : List Event) (st : SimState) : SimState :=
  events.foldl
    (fun st e =>
      let st := { st with current_time := e.1 }
      match e.2 with
      | .arrival v => handle_arrival timing service_rate v st
      | .signal_change _ => handle_signal_change timing service_rate st)
    st

/-- Arrival generation for one direction: repeatedly draw exponential
inter-arrival gaps, accumulate, and emit an arrival while the accumulated
time stays below the duration.  `none` models non-termination of the
`while` loop when the fuel runs out. -/
def genArrivalsDir (d : Direction) (arrival_rate duration : ℚ) :
    ℕ → ℚ → ℕ → Rng → Option (List Event × ℕ × Rng)
  | 0, current_time, counter, rng =>
    if current_time < duration then none else some ([], counter, rng)
  | fuel + 1, current_time, counter, rng =>
    if current_time < duration then
      let (inter_arrival, rng') := rng.exponential (1 / arrival_rate)
      let t' := current_time + inter_arrival
      if t' < duration then
        (genArrivalsDir d arrival_rate duration fuel t' (counter + 1) rng').map
          (fun r => ((t', .arrival ⟨counter, t', d, 0, 0, 0⟩) :: r.1, r.2))
      else
        genArrivalsDir d arrival_rate duration fuel t' counter rng'
    else some ([], counter, rng)

/-- Arrival generation over the volume dictionary (in key order): directions
with non-positive hourly volume are skipped. -/
def genArrivals (duration : ℚ) (fuel : ℕ) :
    List (Direction × ℚ) → ℕ → Rng → Option (List Event × ℕ × Rng)
  | [], counter, rng => some ([], counter, rng)
  | (d, hourly_volume) :: rest, counter, rng =>
    if hourly_volume ≤ 0 then genArrivals duration fuel rest counter rng
    else
      match genArrivalsDir d (hourly_volume / 3600) duration fuel 0 counter rng with
      | none => none
      | some (evs, counter', rng') =>
        (genArrivals duration fuel rest counter' rng').map
          (fun r => (evs ++ r.1, r.2))

/-- Signal-change generation loop: starting at time `0`, append an `NS` event,
advance by `green_time_north`, append an `EW` event, advance by
`green_time_east`, while the accumulated time is below the duration. -/
def genSignalsAux (ns_green ew_green duration : ℚ) :
    ℕ → ℚ → Option (List Event)
  | 0, current_time => if current_time < duration then none else some []
  | fuel + 1, current_time =>
    if current_time < duration then
      (genSignalsAux ns_green ew_green duration fuel
          (current_time + ns_green + ew_green)).map
        (fun r => (current_time, .signal_change .NS) ::
          (current_time + ns_green, .signal_change .EW) :: r)
    else some []

/-- Signal-change events of `_generate_arrivals`; the fuel bound suffices for
any positive cycle, and the loop diverges (`none`) otherwise. -/
def genSignals (timing : SignalTiming) (duration : ℚ) : Option (List Event) :=
  let cycle := timing.green_time_north + timing.green_time_east
  genSignalsAux timing.green_time_north timing.green_time_east duration
    ((⌈duration / cycle⌉).toNat + 1) 0

/-- Sort the event list by timestamp (stable, like `list.sort`). -/
def sortEvents (events : List Event) : List Event :=
  events.mergeSort (fun e₁ e₂ => decide (e₁.1 ≤ e₂.1))

/-- Result record of `_calculate_metrics`.  The two `Option` fields record
keys that are present only in the non-degenerate branch of the source. -/
structure SimMetrics where
  throughput : ℚ
  avg_delay : ℚ
  max_delay : ℚ
  avg_stops : ℚ
  max_queue_length : ℕ
  los : Char
  total_vehicles_processed : Option ℕ
  direction_metrics : Option (List (Direction × ℚ × ℚ))
deriving DecidableEq

/-- Per-direction throughput and average delay, for directions with at least
one processed vehicle. -/
def directionMetrics (processed : List Vehicle) (simulation_hours : ℚ) :
    List (Direction × ℚ × ℚ) :=
  [Direction.N, Direction.S, Direction.E, Direction.W].filterMap
    (fun d =>
      let dir_vehicles := processed.filter (fun v => v.direction = d)
      match dir_vehicles with
      | [] => none
      | v :: vs =>
        some (d, ((v :: vs).length : ℚ) / simulation_hours,
          ((v :: vs).map (fun v => v.delay)).sum / ((v :: vs).length : ℚ)))

/-- `TrafficSimulator._calculate_metrics`. -/
def calculate_metrics (st : SimState) : SimMetrics :=
  match st.vehicles_processed with
  | [] => ⟨0, 0, 0, 0, 0, 'F', none, none⟩
  | v :: vs =>
    let processed := v :: vs
    let simulation_hours := st.current_time / 3600
    let throughput :=
      if simulation_hours > 0 then (processed.length : ℚ) / simulation_hours else 0
    let delays := processed.map (fun v => v.delay)
    let avg_delay := delays.sum / (delays.length : ℚ)
    let max_delay := delays.foldl max v.delay
    let stop_counts := processed.map (fun v => (v.stops : ℚ))
    let avg_stops := stop_counts.sum / (stop_counts.length : ℚ)
    let max_queue_length :=
      max (max (max (max st.queueN.length st.queueS.length) st.queueE.length)
        st.queueW.length) 1
    ⟨throughput, avg_delay, max_delay, avg_stops, max_queue_length,
      level_of_service avg_delay, some processed.length,
      some (directionMetrics processed simulation_hours)⟩

/-- `TrafficSimulator.run_simulation` as a function of the NumPy generator
state: reset the state, generate arrivals then signal changes, sort by time,
play back, and compute metrics.  `none` models a diverging generation loop. -/
def run_simulation (timing : SignalTiming) (saturation_flow_rate : ℚ)
    (rng : Rng) (volumes : List (Direction × ℚ)) (duration : ℚ) (fuel : ℕ) :
    Option SimMetrics :=
  let service_rate := saturation_flow_rate / 3600
  match genArrivals duration fuel volumes 0 rng with
  | none => none
  | some (arrival_events, _, _) =>
    match genSignals timing duration with
    | none => none
    | some signal_events =>
      let events := sortEvents (arrival_events ++ signal_events)
      some (calculate_metrics (processEvents timing service_rate events {}))

/-- Constructing a `TrafficSimulator` re-seeds the global NumPy generator
(`np.random.seed(random_seed)`), discarding the ambient state. -/
def simulatorRng (random_seed : ℕ) (_w : World) : Rng := mkNumpyRng random_seed

/-- The phase that is active at instant `t` of a run: the `current_phase`
after playing back every event with timestamp `≤ t` (events are sorted, so
these form a prefix of the playback). -/
def simPhaseAt (timing : SignalTiming) (saturation_flow_rate : ℚ) (rng : Rng)
    (volumes : List (Direction × ℚ)) (duration : ℚ) (fuel : ℕ) (t : ℚ) :
    Option Phase :=
  let service_rate := saturation_flow_rate / 3600
  match genArrivals duration fuel volumes 0 rng with
  | none => none
  | some (arrival_events, _, _) =>
    match genSignals timing duration with
    | none => none
    | some signal_events =>
      let events :=
        (sortEvents (arrival_events ++ signal_events)).filter
          (fun e => decide (e.1 ≤ t))
      some (processEvents timing service_rate events {}).current_phase

/-! ## Genetic algorithm

Shallow embedding of `GeneticAlgorithm`.  The injected evaluation function
`f : SignalTiming → ℚ × σ` returns a fitness and simulation results of an
abstract type `σ`.  The `random`-module generator and the NumPy generator
are threaded explicitly (`random.*` draws from the first, `np.random.normal`
from the second). -/

/-- An individual: a timing, its last-computed fitness (`0.0` on creation)
and its last simulation results (`None` on creation). -/
structure Individual (σ : Type _) where
  signal_timing : SignalTiming
  fitness : ℚ := 0
  simulation_results : Option σ := none
deriving DecidableEq

/-- Constraint bounds per parameter; cycle-length bounds are integers
(they feed `random.randint`), green bounds are floats. -/
structure Constraints where
  cycle_length : ℤ × ℤ
  green_time_north : ℚ × ℚ
  green_time_south : ℚ × ℚ
  green_time_east : ℚ × ℚ
  green_time_west : ℚ × ℚ

/-- `GeneticAlgorithm._get_default_constraints`. -/
def get_default_constraints : Constraints :=
  ⟨(45, 120), (10, 60), (10, 60), (10, 60), (10, 60)⟩

/-- Constructor hyperparameters of `GeneticAlgorithm`. -/
structure GAConfig where
  population_size : ℕ := 50
  generations : ℕ := 100
  mutation_rate : ℚ := 1 / 10
  crossover_rate : ℚ := 4 / 5
  elitism_count : ℕ := 2
  random_seed : ℕ := 42

/-- The mutable parameter set `['cycle_length', 'green_time_north', ...]`. -/
inductive Param
  | cycle_length | green_north | green_south | green_east | green_west
deriving DecidableEq

def parameters : List Param :=
  [.cycle_length, .green_north, .green_south, .green_east, .green_west]

def paramBounds (cons : Constraints) : Param → ℚ × ℚ
  | .cycle_length => ((cons.cycle_length.1 : ℚ), (cons.cycle_length.2 : ℚ))
  | .green_north => cons.green_time_north
  | .green_south => cons.green_time_south
  | .green_east => cons.green_time_east
  | .green_west => cons.green_time_west

def paramGet (t : SignalTiming) : Param → ℚ
  | .cycle_length => (t.cycle_length : ℚ)
  | .green_north => t.green_time_north
  | .green_south => t.green_time_south
  | .green_east => t.green_time_east
  | .green_west => t.green_time_west

/-- `timing[param] = int(new_val) if param == 'cycle_length' else new_val`. -/
def paramSet (t : SignalTiming) (v : ℚ) : Param → SignalTiming
  | .cycle_length => { t with cycle_length := pyInt v }
  | .green_north => { t with green_time_north := v }
  | .green_south => { t with green_time_south := v }
  | .green_east => { t with green_time_east := v }
  | .green_west => { t with green_time_west := v }

/-- Copy one parameter field from `src` into `dst` (crossover swap step);
`cycle_length` is copied as the integer it is. -/
def copyParam (dst src : SignalTiming) : Param → SignalTiming
  | .cycle_length => { dst with cycle_length := src.cycle_length }
  | .green_north => { dst with green_time_north := src.green_time_north }
  | .green_south => { dst with green_time_south := src.green_time_south }
  | .green_east => { dst with green_time_east := src.green_time_east }
  | .green_west => { dst with green_time_west := src.green_time_west }

/-- One parameter of the uniform crossover of `_crossover`: with
probability 1/2 both children take the other parent's value (always read
from the original parents). -/
def crossoverStep {σ : Type _} (parent1 parent2 : Individual σ)
    (acc : SignalTiming × SignalTiming × Rng) (param : Param) :
    SignalTiming × SignalTiming × Rng :=
  let u := (acc.2.2.nextUnit).1
  let r' := (acc.2.2.nextUnit).2
  if u < 1 / 2 then
    (copyParam acc.1 parent2.signal_timing param,
      copyParam acc.2.1 parent1.signal_timing param, r')
  else (acc.1, acc.2.1, r')

/-- `GeneticAlgorithm._crossover`: uniform crossover — for each parameter,
with probability 1/2 the children swap the parents' values; both child
timings are re-normalized and wrapped in fresh individuals. -/
def crossover {σ : Type _} (parent1 parent2 : Individual σ) (rng : Rng) :
    (Individual σ × Individual σ) × Rng :=
  let res := parameters.foldl (crossoverStep parent1 parent2)
    (parent1.signal_timing, parent2.signal_timing, rng)
  ((⟨normalize_green_times res.1, 0, none⟩,
    ⟨normalize_green_times res.2.1, 0, none⟩), res.2.2)

/-- `GeneticAlgorithm._mutate`: pick one parameter uniformly, add Gaussian
noise `N(0, 0.1·(max − min))`, clip to the bounds (`np.clip`), truncate to an
integer for `cycle_length`, re-normalize greens, wrap in a fresh individual. -/
def mutate {σ : Type _} (individual : Individual σ) (cons : Constraints)
    (pyRng npRng : Rng) : Individual σ × Rng × Rng :=
  let i := (pyRng.below 5).1
  let py' := (pyRng.below 5).2
  let param := parameters.getD i Param.green_west
  let min_val := (paramBounds cons param).1
  let max_val := (paramBounds cons param).2
  let mutation := (npRng.normal ((max_val - min_val) * (1 / 10))).1
  let np' := (npRng.normal ((max_val - min_val) * (1 / 10))).2
  let current_val := paramGet individual.signal_timing param
  let new_val := min (max (current_val + mutation) min_val) max_val
  let timing := paramSet individual.signal_timing new_val param
  (⟨normalize_green_times timing, 0, none⟩, py', np')

/-- Python's `max(tournament, key=fitness)`: the first element attaining the
maximal fitness; `none` on an empty list (where Python would raise). -/
def tournamentWinner {σ : Type _} : List (Individual σ) → Option (Individual σ)
  | [] => none
  | x :: xs =>
    some (xs.foldl (fun acc y => if acc.fitness < y.fitness then y else acc) x)

/-- The tournament loop of `_selection` (tournament size 3): `none` when
`random.sample` raises because the population has fewer than 3 members. -/
def selectionAux {σ : Type _} (population : List (Individual σ)) :
    ℕ → Rng → Option (List (Individual σ) × Rng)
  | 0, r => some ([], r)
  | k + 1, r =>
    let (s, r') := r.sample population 3
    match s with
    | none => none
    | some tournament =>
      match tournamentWinner tournament with
      | none => none
      | some winner =>
        (selectionAux population k r').map (fun p => (winner :: p.1, p.2))

/-- `GeneticAlgorithm._selection`: build `population_size` parents by
tournament selection. -/
def selection {σ : Type _} (population : List (Individual σ))
    (population_size : ℕ) (rng : Rng) :
    Option (List (Individual σ) × Rng) :=
  selectionAux population population_size rng

/-- The crossover-and-mutation loop over consecutive parent pairs (a final
unpaired parent is dropped, matching `range(0, len(parents) - 1, 2)`). -/
def breed {σ : Type _} (cfg : GAConfig) (cons : Constraints) :
    List (Individual σ) → Rng → Rng → List (Individual σ) × Rng × Rng
  | parent1 :: parent2 :: rest, pyRng, npRng =>
    let (u1, py1) := pyRng.nextUnit
    let (children, py2) :=
      if u1 < cfg.crossover_rate then crossover parent1 parent2 py1
      else ((parent1, parent2), py1)
    let (u2, py3) := py2.nextUnit
    let (child1, py4, np1) :=
      if u2 < cfg.mutation_rate then mutate children.1 cons py3 npRng
      else (children.1, py3, npRng)
    let (u3, py5) := py4.nextUnit
    let (child2, py6, np2) :=
      if u3 < cfg.mutation_rate then mutate children.2 cons py5 np1
      else (children.2, py5, np1)
    let (restOffspring, py7, np3) := breed cfg cons rest py6 np2
    (child1 :: child2 :: restOffspring, py7, np3)
  | _, pyRng, npRng => ([], pyRng, npRng)

/-- The randomized-individual loop of `_initialize_population`. -/
def initPopAux {σ : Type _} (initial : SignalTiming) (cons : Constraints) :
    ℕ → Rng → List (Individual σ) × Rng
  | 0, r => ([], r)
  | n + 1, r =>
    let (cyc, r1) := r.randint cons.cycle_length.1 cons.cycle_length.2
    let (gN, r2) := r1.uniform cons.green_time_north.1 cons.green_time_north.2
    let (gS, r3) := r2.uniform cons.green_time_south.1 cons.green_time_south.2
    let (gE, r4) := r3.uniform cons.green_time_east.1 cons.green_time_east.2
    let (gW, r5) := r4.uniform cons.green_time_west.1 cons.green_time_west.2
    let timing := normalize_green_times
      { initial with
        cycle_length := cyc
        green_time_north := gN
        green_time_south := gS
        green_time_east := gE
        green_time_west := gW }
    let (rest, r6) := initPopAux initial cons n r5
    (⟨timing, 0, none⟩ :: rest, r6)

/-- `GeneticAlgorithm._initialize_population`: the initial timing first,
then `population_size − 1` randomized, normalized individuals. -/
def init_population {σ : Type _} (population_size : ℕ)
    (initial : SignalTiming) (cons : Constraints) (rng : Rng) :
    List (Individual σ) × Rng :=
  (⟨initial, 0, none⟩ ::
      (initPopAux (σ := σ) initial cons (population_size - 1) rng).1,
    (initPopAux (σ := σ) initial cons (population_size - 1) rng).2)

/-- `GeneticAlgorithm._evaluate_population` on one individual. -/
def evalIndividual {σ : Type _} (f : SignalTiming → ℚ × σ)
    (ind : Individual σ) : Individual σ :=
  ⟨ind.signal_timing, (f ind.signal_timing).1, some (f ind.signal_timing).2⟩

/-- `GeneticAlgorithm._evaluate_population`. -/
def evaluate_population {σ : Type _} (f : SignalTiming → ℚ × σ)
    (population : List (Individual σ)) : List (Individual σ) :=
  population.map (evalIndividual f)

/-- `population.sort(key=fitness, reverse=True)`: stable descending sort. -/
def sortPop {σ : Type _} (population : List (Individual σ)) :
    List (Individual σ) :=
  population.mergeSort (fun a b => decide (b.fitness ≤ a.fitness))

/-- Python list slicing `l[:k]` for a possibly negative `k`. -/
def pyTake {α : Type _} (k : ℤ) (l : List α) : List α :=
  if 0 ≤ k then l.take k.toNat else l.take (l.length - (-k).toNat)

/-- Errors a run of `optimize` can raise: `ValueError` from `random.sample`,
`IndexError` on an empty population, `AttributeError` when no best individual
was ever recorded (zero generations). -/
inductive GAErr
  | sampleTooSmall | emptyPopulation | noBestIndividual
deriving DecidableEq

/-- The mutable attributes of a `GeneticAlgorithm` during `optimize`,
together with the two global generator states. -/
structure GAState (σ : Type _) where
  population : List (Individual σ)
  randomRng : Rng
  numpyRng : Rng
  best_individual : Option (Individual σ)
  fitness_history : List ℚ

/-- One iteration of the generation loop of `optimize`: selection, breeding,
elitism over the fitness-sorted current population, replacement (elites plus
offspring truncated to `population_size`), re-evaluation, re-sort, and
recording of the best fitness. -/
def gaStep {σ : Type _} (cfg : GAConfig) (cons : Constraints)
    (f : SignalTiming → ℚ × σ) (st : GAState σ) :
    Except GAErr (GAState σ) :=
  match selection st.population cfg.population_size st.randomRng with
  | none => .error .sampleTooSmall
  | some (parents, py1) =>
    let (offspring, py2, np2) := breed cfg cons parents py1 st.numpyRng
    let sorted := sortPop st.population
    let elite := sorted.take cfg.elitism_count
    let new_population :=
      elite ++ pyTake ((cfg.population_size : ℤ) - (cfg.elitism_count : ℤ)) offspring
    let evaluated := evaluate_population f new_population
    match sortPop evaluated with
    | [] => .error .emptyPopulation
    | best :: rest =>
      .ok ⟨best :: rest, py2, np2, some best,
        st.fitness_history ++ [best.fitness]⟩

/-- The generation loop, run a fixed number of times. -/
def gaLoop {σ : Type _} (cfg : GAConfig) (cons : Constraints)
    (f : SignalTiming → ℚ × σ) : ℕ → GAState σ → Except GAErr (GAState σ)
  | 0, st => .ok st
  | n + 1, st =>
    match gaStep cfg cons f st with
    | .error e => .error e
    | .ok st' => gaLoop cfg cons f n st'

/-- The optimization summary record returned by `optimize`. -/
structure OptimizationResults (σ : Type _) where
  best_fitness : ℚ
  fitness_history : List ℚ
  generations : ℕ
  final_population_size : ℕ
  simulation_results : Option σ
deriving DecidableEq

/-- `GeneticAlgorithm.optimize` on a freshly constructed instance: the
constructor's `random.seed` / `np.random.seed` calls replace the ambient
global generators (`_w` is discarded), the population is initialized and
evaluated, the generation loop runs `generations` times, and the best
individual's timing and the summary are returned. -/
def optimize {σ : Type _} (cfg : GAConfig) (f : SignalTiming → ℚ × σ)
    (initial_timing : SignalTiming) (constraints : Option Constraints)
    (_w : World) : Except GAErr (SignalTiming × OptimizationResults σ) :=
  let cons := constraints.getD get_default_constraints
  let randomRng := mkRandomRng cfg.random_seed
  let numpyRng := mkNumpyRng cfg.random_seed
  let ip := init_population (σ := σ) cfg.population_size initial_timing cons randomRng
  let evaluated := evaluate_population f ip.1
  match gaLoop cfg cons f cfg.generations ⟨evaluated, ip.2, numpyRng, none, []⟩ with
  | .error e => .error e
  | .ok st =>
    match st.best_individual with
    | none => .error .noBestIndividual
    | some best =>
      .ok (best.signal_timing,
        ⟨best.fitness, st.fitness_history, cfg.generations,
          st.population.length, best.simulation_results⟩)

/-- All four queues and the processed list of a state are empty. -/
def emptySim (st : SimState) : Prop :=
  st.queueN = [] ∧ st.queueS = [] ∧ st.queueE = [] ∧ st.queueW = [] ∧
    st.vehicles_processed = []

/-- Every individual of a population carries the fitness its own timing
evaluates to under `f` (the state after `_evaluate_population`). -/
def evaluated_pop {σ : Type _} (f : SignalTiming → ℚ × σ)
    (population : List (Individual σ)) : Prop :=
  ∀ ind ∈ population, ind.fitness = (f ind.signal_timing).1

deriving instance DecidableEq for Except

/-- The cycle-length invariant of the data model: `45 ≤ cycle_length ≤ 120`
(integrality is carried by the type `ℤ` of the field). -/
def cycle_in_bounds (t : SignalTiming) : Prop :=
  45 ≤ t.cycle_length ∧ t.cycle_length ≤ 120

instance (t : SignalTiming) : Decidable (cycle_in_bounds t) := by
  unfold cycle_in_bounds
  infer_instance

/-! ## Concrete inputs used by witnesses -/

/-- The baseline timing of the repository's tests:
`{cycle_length: 90, greens: 35/35/30/30, yellow: 3, all_red: 2}`. -/
def stdTiming : SignalTiming := ⟨90, 35, 35, 30, 30, 3, 2⟩

/-- A timing whose green times exceed the available green. -/
def wideTiming : SignalTiming := ⟨90, 100, 100, 100, 100, 3, 2⟩

/-- All four directions with hourly volume zero. -/
def zeroVolumes : List (Direction × ℚ) := [(.N, 0), (.S, 0), (.E, 0), (.W, 0)]

/-- Northbound traffic only, 360 vehicles per hour. -/
def volsN360 : List (Direction × ℚ) := [(.N, 360)]

/-- A raw-draw stream that is constantly `v`. -/
def constRng (v : ℕ) : Rng := ⟨fun _ => v, 0⟩

/-- Some ambient generator states predating construction. -/
def world0 : World := ⟨mkRandomRng 0, mkNumpyRng 0⟩

/-- A second, different ambient state. -/
def world1 : World := ⟨mkRandomRng 99, mkNumpyRng 77⟩

/-- A well-behaved (total) evaluation function with trivial results. -/
def constEval : SignalTiming → ℚ × Unit := fun _ => (0, ())

/-- Population 3, one generation, no crossover or mutation. -/
def cfg3g1 : GAConfig := ⟨3, 1, 0, 0, 2, 42⟩

/-- Population 3, two generations, no crossover or mutation. -/
def cfg3g2 : GAConfig := ⟨3, 2, 0, 0, 2, 42⟩

/-- Population 2 (below the tournament size), one generation. -/
def cfg2g1 : GAConfig := ⟨2, 1, 0, 0, 2, 42⟩

/-! ## Theorems -/

/-- C7: `penalty_for_constraints` is never positive and equals the negated
sum of the minimum-green penalties `(10 − green)·10` for each approach below
10, the cycle-window penalty `|cycle − 80|·5` outside `[45, 120]`, and the
available-green penalty `(total_green − available_green)·20` when the summed
greens exceed `cycle_length − 2·(yellow + all_red)`. -/
theorem C7_penalty (t : SignalTiming) :
    penalty_for_constraints t ≤ 0 ∧
    penalty_for_constraints t =
      -(((if t.green_time_north < 10 then (10 - t.green_time_north) * 10 else 0) +
          (if t.green_time_south < 10 then (10 - t.green_time_south) * 10 else 0) +
          (if t.green_time_east < 10 then (10 - t.green_time_east) * 10 else 0) +
          (if t.green_time_west < 10 then (10 - t.green_time_west) * 10 else 0)) +
        (if t.cycle_length < 45 ∨ t.cycle_length > 120 then
          |((t.cycle_length : ℚ)) - 80| * 5 else 0) +
        (if (t.green_time_north + t.green_time_south + t.green_time_east +
              t.green_time_west) >
            ((t.cycle_length : ℚ) - (t.yellow_time + t.all_red_time) * 2) then
          (t.green_time_north + t.green_time_south + t.green_time_east +
              t.green_time_west -
            ((t.cycle_length : ℚ) - (t.yellow_time + t.all_red_time) * 2)) * 20
        else 0)) := by
  have heq : penalty_for_constraints t =
      -(((if t.green_time_north < 10 then (10 - t.green_time_north) * 10 else 0) +
          (if t.green_time_south < 10 then (10 - t.green_time_south) * 10 else 0) +
          (if t.green_time_east < 10 then (10 - t.green_time_east) * 10 else 0) +
          (if t.green_time_west < 10 then (10 - t.green_time_west) * 10 else 0)) +
        (if t.cycle_length < 45 ∨ t.cycle_length > 120 then
          |((t.cycle_length : ℚ)) - 80| * 5 else 0) +
        (if (t.green_time_north + t.green_time_south + t.green_time_east +
              t.green_time_west) >
            ((t.cycle_length : ℚ) - (t.yellow_time + t.all_red_time) * 2) then
          (t.green_time_north + t.green_time_south + t.green_time_east +
              t.green_time_west -
            ((t.cycle_length : ℚ) - (t.yellow_time + t.all_red_time) * 2)) * 20
        else 0)) := by
    simp only [penalty_for_constraints]
    split_ifs <;> ring
  refine ⟨?_, heq⟩
  rw [heq]
  have h1 : (0 : ℚ) ≤
      if t.green_time_north < 10 then (10 - t.green_time_north) * 10 else 0 := by
    split_ifs with h
    · nlinarith
    · exact le_refl 0
  have h2 : (0 : ℚ) ≤
      if t.green_time_south < 10 then (10 - t.green_time_south) * 10 else 0 := by
    split_ifs with h
    · nlinarith
    · exact le_refl 0
  have h3 : (0 : ℚ) ≤
      if t.green_time_east < 10 then (10 - t.green_time_east) * 10 else 0 := by
    split_ifs with h
    · nlinarith
    · exact le_refl 0
  have h4 : (0 : ℚ) ≤
      if t.green_time_west < 10 then (10 - t.green_time_west) * 10 else 0 := by
    split_ifs with h
    · nlinarith
    · exact le_refl 0
  have h5 : (0 : ℚ) ≤
      if t.cycle_length < 45 ∨ t.cycle_length > 120 then
        |((t.cycle_length : ℚ)) - 80| * 5 else 0 := by
    split_ifs with h
    · have := abs_nonneg (((t.cycle_length : ℚ)) - 80)
      nlinarith
    · exact le_refl 0
  have h6 : (0 : ℚ) ≤
      if (t.green_time_north + t.green_time_south + t.green_time_east +
            t.green_time_west) >
          ((t.cycle_length : ℚ) - (t.yellow_time + t.all_red_time) * 2) then
        (t.green_time_north + t.green_time_south + t.green_time_east +
            t.green_time_west -
          ((t.cycle_length : ℚ) - (t.yellow_time + t.all_red_time) * 2)) * 20
      else 0 := by
    split_ifs with h
    · nlinarith
    · exact le_refl 0
  linarith

/-- C5: for any timing whose available green
`cycle_length − 2·(yellow_time + all_red_time)` is non-negative,
`_normalize_green_times` equalizes the NS pair and the EW pair and bounds
their sum by the available green (exactly, over exact arithmetic), for any
input green values. -/
theorem C5_normalize (t : SignalTiming)
    (h : 0 ≤ (t.cycle_length : ℚ) - (t.yellow_time + t.all_red_time) * 2) :
    (normalize_green_times t).green_time_north =
        (normalize_green_times t).green_time_south ∧
    (normalize_green_times t).green_time_east =
        (normalize_green_times t).green_time_west ∧
    (normalize_green_times t).green_time_north +
        (normalize_green_times t).green_time_east ≤
      (t.cycle_length : ℚ) - (t.yellow_time + t.all_red_time) * 2 := by
  simp only [normalize_green_times]
  set avail := (t.cycle_length : ℚ) - (t.yellow_time + t.all_red_time) * 2 with havail
  set ns := (t.green_time_north + t.green_time_south) / 2 with hns
  set ew := (t.green_time_east + t.green_time_west) / 2 with hew
  split_ifs with hc
  · refine ⟨trivial, trivial, ?_⟩
    have htot : ns + ew ≠ 0 := by
      intro h0
      rw [h0] at hc
      exact absurd (lt_of_lt_of_le hc h) (lt_irrefl avail)
    have : ns * (avail / (ns + ew)) + ew * (avail / (ns + ew)) =
        (ns + ew) * (avail / (ns + ew)) := by ring
    rw [this, mul_div_assoc']
    rw [mul_comm, mul_div_assoc, div_self htot, mul_one]
  · exact ⟨trivial, trivial, not_lt.mp hc⟩

/-- C5 witness: a concrete timing with oversized greens satisfies the
hypothesis and the normalized record satisfies the invariant. -/
theorem C5_normalize_witness :
    (0 ≤ (wideTiming.cycle_length : ℚ) -
        (wideTiming.yellow_time + wideTiming.all_red_time) * 2) ∧
    ((normalize_green_times wideTiming).green_time_north =
        (normalize_green_times wideTiming).green_time_south ∧
    (normalize_green_times wideTiming).green_time_east =
        (normalize_green_times wideTiming).green_time_west ∧
    (normalize_green_times wideTiming).green_time_north +
        (normalize_green_times wideTiming).green_time_east ≤
      (wideTiming.cycle_length : ℚ) -
        (wideTiming.yellow_time + wideTiming.all_red_time) * 2) :=
  ⟨by with_unfolding_all decide,
    C5_normalize wideTiming (by with_unfolding_all decide)⟩

/-- C8: for positive arrival rate, positive cycle and positive capacity
`service_rate·green/cycle`, `calculate_delay` returns the Webster uniform
delay and the random-delay component when the degree of saturation
`x = arrival_rate/capacity` is below one, the fallbacks `0.5·cycle` and
`0.25·cycle` otherwise, and in all cases `total = uniform + random` and the
reported saturation equals `x`. -/
theorem C8_delay (service_rate arrival_rate green_time red_time : ℚ)
    (ha : 0 < arrival_rate) (hcyc : 0 < green_time + red_time)
    (hcap : 0 < service_rate * green_time / (green_time + red_time)) :
    (calculate_delay service_rate arrival_rate green_time red_time).saturation =
      arrival_rate / (service_rate * green_time / (green_time + red_time)) ∧
    (calculate_delay service_rate arrival_rate green_time red_time).total_delay =
      (calculate_delay service_rate arrival_rate green_time red_time).uniform_delay +
      (calculate_delay service_rate arrival_rate green_time red_time).random_delay ∧
    (arrival_rate / (service_rate * green_time / (green_time + red_time)) < 1 →
      (calculate_delay service_rate arrival_rate green_time red_time).uniform_delay =
        ((green_time + red_time) *
            (1 - green_time / (green_time + red_time)) ^ 2) /
          (2 * (1 - (arrival_rate /
              (service_rate * green_time / (green_time + red_time))) *
            (green_time / (green_time + red_time)))) ∧
      (calculate_delay service_rate arrival_rate green_time red_time).random_delay =
        ((arrival_rate / (service_rate * green_time / (green_time + red_time))) *
            (arrival_rate / (service_rate * green_time / (green_time + red_time)))) /
          (2 * arrival_rate *
            (1 - arrival_rate /
              (service_rate * green_time / (green_time + red_time))))) ∧
    (1 ≤ arrival_rate / (service_rate * green_time / (green_time + red_time)) →
      (calculate_delay service_rate arrival_rate green_time red_time).uniform_delay =
        (green_time + red_time) * (1 / 2) ∧
      (calculate_delay service_rate arrival_rate green_time red_time).random_delay =
        (green_time + red_time) * (1 / 4)) := by
  simp only [calculate_delay, if_pos hcap]
  refine ⟨trivial, trivial, ?_, ?_⟩
  · intro hx
    simp only [if_pos hx]
    exact ⟨trivial, trivial⟩
  · intro hx
    simp only [if_neg (not_lt.mpr hx)]
    exact ⟨trivial, trivial⟩

/-- C8 witness: `service_rate = 1/2`, `arrival_rate = 3/10`,
`green = red = 30` gives capacity `1/4` and saturation `6/5 ≥ 1`, so both
oversaturation fallbacks apply and `total = uniform + random`. -/
theorem C8_delay_witness :
    ((0 : ℚ) < 3 / 10) ∧ ((0 : ℚ) < 30 + 30) ∧
    ((0 : ℚ) < (1 / 2 : ℚ) * 30 / (30 + 30)) ∧
    ((1 : ℚ) ≤ (3 / 10 : ℚ) / ((1 / 2 : ℚ) * 30 / (30 + 30))) ∧
    (calculate_delay (1 / 2) (3 / 10) 30 30).uniform_delay =
      ((30 : ℚ) + 30) * (1 / 2) ∧
    (calculate_delay (1 / 2) (3 / 10) 30 30).random_delay =
      ((30 : ℚ) + 30) * (1 / 4) ∧
    (calculate_delay (1 / 2) (3 / 10) 30 30).total_delay =
      (calculate_delay (1 / 2) (3 / 10) 30 30).uniform_delay +
      (calculate_delay (1 / 2) (3 / 10) 30 30).random_delay := by
  have h := C8_delay (1 / 2) (3 / 10) 30 30
    (by with_unfolding_all decide) (by with_unfolding_all decide)
    (by with_unfolding_all decide)
  have hx : (1 : ℚ) ≤ (3 / 10 : ℚ) / ((1 / 2 : ℚ) * 30 / (30 + 30)) := by
    with_unfolding_all decide
  refine ⟨by with_unfolding_all decide, by with_unfolding_all decide,
    by with_unfolding_all decide, hx, (h.2.2.2 hx).1, (h.2.2.2 hx).2, h.2.1⟩

lemma serveCount_nil (cap : ℤ) : serveCount [] cap = 0 := by
  unfold serveCount
  simp only [List.length_nil, Nat.cast_zero, Int.toNat_eq_zero]
  exact min_le_left 0 cap

lemma serve_vehicles_empty (timing : SignalTiming) (sr : ℚ) (st : SimState)
    (h : emptySim st) : emptySim (serve_vehicles timing sr st) := by
  obtain ⟨h1, h2, h3, h4, h5⟩ := h
  cases hph : st.current_phase <;>
    simp only [serve_vehicles, hph] <;>
    split_ifs <;>
    simp [h1, h2, h3, h4, h5, serveCount_nil, serveFromQueue, emptySim]

lemma handle_signal_change_empty (timing : SignalTiming) (sr : ℚ)
    (st : SimState) (h : emptySim st) :
    emptySim (handle_signal_change timing sr st) := by
  unfold handle_signal_change
  exact serve_vehicles_empty timing sr _ h

lemma processEvents_signals (timing : SignalTiming) (sr : ℚ) :
    ∀ (events : List Event) (st : SimState), emptySim st →
      (∀ e ∈ events, ∃ p, e.2 = EventData.signal_change p) →
      emptySim (processEvents timing sr events st) := by
  intro events
  induction events with
  | nil => intro st h _; exact h
  | cons e es ih =>
    intro st h hall
    obtain ⟨p, hp⟩ := hall e (List.mem_cons_self e es)
    have hstep : processEvents timing sr (e :: es) st =
        processEvents timing sr es
          (handle_signal_change timing sr { st with current_time := e.1 }) := by
      simp only [processEvents, List.foldl_cons, hp]
    rw [hstep]
    exact ih _ (handle_signal_change_empty timing sr _ h)
      (fun e' he' => hall e' (List.mem_cons_of_mem e he'))

lemma genSignalsAux_signal (ns ew d : ℚ) :
    ∀ (fuel : ℕ) (t : ℚ) (evs : List Event),
      genSignalsAux ns ew d fuel t = some evs →
      ∀ e ∈ evs, ∃ p, e.2 = EventData.signal_change p := by
  intro fuel
  induction fuel with
  | zero =>
    intro t evs h
    unfold genSignalsAux at h
    split_ifs at h
    injection h with h'
    subst h'
    intro e he
    exact absurd he (List.not_mem_nil e)
  | succ n ih =>
    intro t evs h
    unfold genSignalsAux at h
    split_ifs at h with ht
    · rw [Option.map_eq_some'] at h
      obtain ⟨rest, hrest, hevs⟩ := h
      subst hevs
      intro e he
      rcases List.mem_cons.mp he with rfl | he2
      · exact ⟨.NS, rfl⟩
      · rcases List.mem_cons.mp he2 with rfl | he3
        · exact ⟨.EW, rfl⟩
        · exact ih _ rest hrest e he3
    · injection h with h'
      subst h'
      intro e he
      exact absurd he (List.not_mem_nil e)

lemma genSignalsAux_some (ns ew d : ℚ) :
    ∀ (fuel : ℕ) (t : ℚ), d ≤ t + fuel * (ns + ew) →
      ∃ evs, genSignalsAux ns ew d fuel t = some evs := by
  intro fuel
  induction fuel with
  | zero =>
    intro t h
    have ht : d ≤ t := by simpa using h
    refine ⟨[], ?_⟩
    unfold genSignalsAux
    rw [if_neg (not_lt.mpr ht)]
  | succ n ih =>
    intro t h
    by_cases ht : t < d
    · have hc : ((n + 1 : ℕ) : ℚ) * (ns + ew) = n * (ns + ew) + (ns + ew) := by
        push_cast
        ring
      have h' : d ≤ (t + ns + ew) + n * (ns + ew) := by
        rw [hc] at h
        linarith
      obtain ⟨evs, hevs⟩ := ih (t + ns + ew) h'
      refine ⟨(t, .signal_change .NS) :: (t + ns, .signal_change .EW) :: evs, ?_⟩
      unfold genSignalsAux
      rw [if_pos ht, hevs]
      rfl
    · refine ⟨[], ?_⟩
      unfold genSignalsAux
      rw [if_neg ht]

lemma genSignals_some (timing : SignalTiming) (duration : ℚ)
    (hns : 0 < timing.green_time_north) (hew : 0 < timing.green_time_east) :
    ∃ evs, genSignals timing duration = some evs ∧
      ∀ e ∈ evs, ∃ p, e.2 = EventData.signal_change p := by
  have hc : 0 < timing.green_time_north + timing.green_time_east := by linarith
  set c := timing.green_time_north + timing.green_time_east with hcdef
  have hfuel : duration ≤
      0 + (((⌈duration / c⌉).toNat + 1 : ℕ) : ℚ) * c := by
    rcases le_or_lt duration 0 with hd | hd
    · have h1 : (0 : ℚ) ≤ ((⌈duration / c⌉).toNat : ℚ) := Nat.cast_nonneg _
      have h2 : (0 : ℚ) <
          (((⌈duration / c⌉).toNat + 1 : ℕ) : ℚ) * c := by
        apply mul_pos _ hc
        push_cast
        linarith
      linarith
    · have h1 : duration / c ≤ ((⌈duration / c⌉ : ℤ) : ℚ) := Int.le_ceil _
      have h2 : (0 : ℤ) ≤ ⌈duration / c⌉ :=
        Int.ceil_nonneg (le_of_lt (div_pos hd hc))
      have h3 : (((⌈duration / c⌉).toNat : ℕ) : ℚ) = ((⌈duration / c⌉ : ℤ) : ℚ) := by
        exact_mod_cast congrArg (fun z => ((z : ℤ) : ℚ)) (Int.toNat_of_nonneg h2)
      have h4 : duration / c * c = duration := div_mul_cancel₀ duration (ne_of_gt hc)
      have h5 : duration / c * c ≤ (((⌈duration / c⌉).toNat : ℚ) + 1) * c := by
        apply mul_le_mul_of_nonneg_right _ (le_of_lt hc)
        rw [h3]
        linarith
      push_cast
      push_cast at h5
      linarith [h4 ▸ h5]
  obtain ⟨evs, hevs⟩ :=
    genSignalsAux_some timing.green_time_north timing.green_time_east duration
      ((⌈duration / c⌉).toNat + 1) 0 hfuel
  exact ⟨evs, hevs, genSignalsAux_signal _ _ _ _ _ _ hevs⟩

lemma genArrivals_zero (duration : ℚ) (fuel : ℕ) :
    ∀ (vols : List (Direction × ℚ)) (counter : ℕ) (rng : Rng),
      (∀ p ∈ vols, p.2 = 0) →
      genArrivals duration fuel vols counter rng = some ([], counter, rng) := by
  intro vols
  induction vols with
  | nil => intro c r _; rfl
  | cons p rest ih =>
    intro c r hv
    obtain ⟨d, v⟩ := p
    have hp : v = 0 := hv (d, v) (List.mem_cons_self _ _)
    simp only [genArrivals]
    rw [if_pos (le_of_eq hp)]
    exact ih c r (fun q hq => hv q (List.mem_cons_of_mem _ hq))

lemma calculate_metrics_empty (st : SimState)
    (h : st.vehicles_processed = []) :
    calculate_metrics st = ⟨0, 0, 0, 0, 0, 'F', none, none⟩ := by
  unfold calculate_metrics
  rw [h]

/-- C2 (amended): a `run_simulation` call in which every direction's hourly
volume is zero raises no error and returns the degenerate metrics record —
`throughput = 0` and `level_of_service = 'F'`, with no
`total_vehicles_processed` entry (the degenerate branch of
`_calculate_metrics` omits that key, so it is `none` rather than `0`). -/
theorem C2_zero_volume_run (timing : SignalTiming) (saturation_flow_rate : ℚ)
    (rng : Rng) (vols : List (Direction × ℚ)) (duration : ℚ) (fuel : ℕ)
    (hv : ∀ p ∈ vols, p.2 = 0)
    (hns : 0 < timing.green_time_north) (hew : 0 < timing.green_time_east) :
    run_simulation timing saturation_flow_rate rng vols duration fuel =
      some ⟨0, 0, 0, 0, 0, 'F', none, none⟩ := by
  obtain ⟨sigs, hsigs, hall⟩ := genSignals_some timing duration hns hew
  have harr := genArrivals_zero duration fuel vols 0 rng hv
  have hemp : emptySim (processEvents timing (saturation_flow_rate / 3600)
      (sortEvents ([] ++ sigs)) {}) := by
    apply processEvents_signals
    · exact ⟨rfl, rfl, rfl, rfl, rfl⟩
    · intro e he
      apply hall
      have hperm := List.mergeSort_perm ([] ++ sigs)
        (fun e₁ e₂ : Event => decide (e₁.1 ≤ e₂.1))
      have := hperm.mem_iff.mp he
      simpa using this
  simp only [run_simulation, harr, hsigs]
  exact congrArg some (calculate_metrics_empty _ hemp.2.2.2.2)

/-- C2 witness: the concrete all-zero-volume call returns the degenerate
record. -/
theorem C2_zero_volume_run_witness :
    (∀ p ∈ zeroVolumes, p.2 = 0) ∧
    (0 < stdTiming.green_time_north) ∧
    (0 < stdTiming.green_time_east) ∧
    run_simulation stdTiming 1800 (constRng 0) zeroVolumes 130 5 =
      some ⟨0, 0, 0, 0, 0, 'F', none, none⟩ :=
  ⟨by with_unfolding_all decide, by with_unfolding_all decide,
    by with_unfolding_all decide,
    C2_zero_volume_run stdTiming 1800 (constRng 0) zeroVolumes 130 5
      (by with_unfolding_all decide) (by with_unfolding_all decide)
      (by with_unfolding_all decide)⟩

/-- C2 counterexample to the claim as stated: the record returned for an
all-zero-volume run carries no `total_vehicles_processed` entry at all
(`none`), rather than the entry `0` the claim asserts. -/
theorem C2_no_processed_key :
    ((run_simulation stdTiming 1800 (constRng 0) zeroVolumes 130 5).map
        (fun m => m.total_vehicles_processed)) = some none ∧
    ((run_simulation stdTiming 1800 (constRng 0) zeroVolumes 130 5).map
        (fun m => m.total_vehicles_processed)) ≠ some (some 0) := by
  constructor
  · with_unfolding_all decide
  · with_unfolding_all decide

/-- C1 (code bug): the time-0 signal-change event, although labelled `NS`,
is handled by an unconditional toggle, so throughout the first scheduled
block `[0, green_time_north)` the active phase is `EW`, not `NS`.  First
conjunct: at instant `10` of a run of the standard timing
(`green_time_north = 35`) the phase is `EW`.  Second conjunct: a single
northbound vehicle arriving at `t = 10` (arrival rate `360/hr` with a draw
stream making the first inter-arrival gap exactly `10`) is not served during
`[0, 35)` but only when the phase toggles back at `t = 35`, giving average
delay `25` where an active `NS` phase would have served it immediately. -/
theorem C1_first_block_phase :
    simPhaseAt stdTiming 1800 (constRng 0) zeroVolumes 100 5 10 =
      some Phase.EW ∧
    (run_simulation stdTiming 1800 (constRng 65535) volsN360 20 5).map
      (fun m => m.avg_delay) = some 25 := by
  constructor
  · with_unfolding_all decide
  · with_unfolding_all decide

/-- C4: fixing `random_seed` and all inputs, two runs of `optimize` on
freshly constructed instances — whatever the ambient global generator states
`w₁`, `w₂` were beforehand — produce identical fitness histories and an
identical best signal timing (indeed identical results), because
construction re-seeds both global generators from the seed alone and every
random draw derives from them. -/
theorem C4_reproducible {σ : Type _} (w₁ w₂ : World) (cfg : GAConfig)
    (f : SignalTiming → ℚ × σ) (initial : SignalTiming)
    (cons : Option Constraints) :
    (optimize cfg f initial cons w₁).map
        (fun r => (r.2.fitness_history, r.1)) =
      (optimize cfg f initial cons w₂).map
        (fun r => (r.2.fitness_history, r.1)) ∧
    optimize cfg f initial cons w₁ = optimize cfg f initial cons w₂ :=
  ⟨rfl, rfl⟩

lemma selection_short {σ : Type _} (population : List (Individual σ))
    (hlen : population.length < 3) (count : ℕ) (hcount : 1 ≤ count)
    (rng : Rng) : selection population count rng = none := by
  obtain ⟨k, rfl⟩ : ∃ k, count = k + 1 := ⟨count - 1, by omega⟩
  simp [selection, selectionAux, Rng.sample, hlen]

lemma initPopAux_length {σ : Type _} (initial : SignalTiming)
    (cons : Constraints) :
    ∀ (n : ℕ) (rng : Rng),
      (initPopAux (σ := σ) initial cons n rng).1.length = n := by
  intro n
  induction n with
  | zero => intro rng; rfl
  | succ k ih =>
    intro rng
    simp only [initPopAux]
    simp [ih]

lemma init_population_length {σ : Type _} (population_size : ℕ)
    (initial : SignalTiming) (cons : Constraints) (rng : Rng) :
    (init_population (σ := σ) population_size initial cons rng).1.length =
      1 + (population_size - 1) := by
  simp [init_population, initPopAux_length]
  omega

lemma gaStep_sampleError {σ : Type _} (cfg : GAConfig) (cons : Constraints)
    (f : SignalTiming → ℚ × σ) (st : GAState σ)
    (h : st.population.length < 3) (hp : 1 ≤ cfg.population_size) :
    gaStep cfg cons f st = .error .sampleTooSmall := by
  simp [gaStep, selection_short st.population h cfg.population_size hp]

/-- C10: with `1 ≤ population_size < 3` (sizes the interface allows) and at
least one generation, `optimize` aborts inside tournament selection — the
population cannot supply a 3-element `random.sample` — and returns no
result. -/
theorem C10_small_population {σ : Type _} (cfg : GAConfig)
    (f : SignalTiming → ℚ × σ) (initial : SignalTiming)
    (cons : Option Constraints) (w : World)
    (hp1 : 1 ≤ cfg.population_size) (hp3 : cfg.population_size < 3)
    (hg : 1 ≤ cfg.generations) :
    optimize cfg f initial cons w = .error .sampleTooSmall := by
  obtain ⟨g, hgen⟩ : ∃ g, cfg.generations = g + 1 :=
    ⟨cfg.generations - 1, by omega⟩
  have hlen : (evaluate_population f
      (init_population (σ := σ) cfg.population_size initial
        (cons.getD get_default_constraints) (mkRandomRng cfg.random_seed)).1).length < 3 := by
    simp only [evaluate_population, List.length_map, init_population_length]
    omega
  have hstep := gaStep_sampleError cfg (cons.getD get_default_constraints) f
    ⟨evaluate_population f (init_population (σ := σ) cfg.population_size initial
        (cons.getD get_default_constraints) (mkRandomRng cfg.random_seed)).1,
      (init_population (σ := σ) cfg.population_size initial
        (cons.getD get_default_constraints) (mkRandomRng cfg.random_seed)).2,
      mkNumpyRng cfg.random_seed, none, []⟩ hlen hp1
  simp only [optimize, hgen, gaLoop, hstep]

/-- C10 witness: a concrete population-2, one-generation run aborts in
selection. -/
theorem C10_small_population_witness :
    (1 ≤ cfg2g1.population_size) ∧ (cfg2g1.population_size < 3) ∧
    (1 ≤ cfg2g1.generations) ∧
    optimize cfg2g1 constEval stdTiming none world0 =
      .error .sampleTooSmall :=
  ⟨by with_unfolding_all decide, by with_unfolding_all decide,
    by with_unfolding_all decide,
    C10_small_population cfg2g1 constEval stdTiming none world0
      (by with_unfolding_all decide) (by with_unfolding_all decide)
      (by with_unfolding_all decide)⟩

lemma gaStep_ok_spec {σ : Type _} (cfg : GAConfig) (cons : Constraints)
    (f : SignalTiming → ℚ × σ) (st st' : GAState σ)
    (h : gaStep cfg cons f st = .ok st') :
    ∃ (best : Individual σ) (rest tail : List (Individual σ)),
      sortPop (evaluate_population f
        ((sortPop st.population).take cfg.elitism_count ++ tail)) =
          best :: rest ∧
      st'.population = best :: rest ∧
      st'.best_individual = some best ∧
      st'.fitness_history = st.fitness_history ++ [best.fitness] := by
  simp only [gaStep] at h
  split at h
  · exact (Except.noConfusion h)
  · split at h
    · exact (Except.noConfusion h)
    · next best rest heq =>
      refine ⟨best, rest, _, heq, ?_, ?_, ?_⟩ <;>
        (injection h with h'; rw [← h'])

lemma gaLoop_ok_length {σ : Type _} (cfg : GAConfig) (cons : Constraints)
    (f : SignalTiming → ℚ × σ) :
    ∀ (n : ℕ) (st st' : GAState σ), gaLoop cfg cons f n st = .ok st' →
      st'.fitness_history.length = st.fitness_history.length + n := by
  intro n
  induction n with
  | zero =>
    intro st st' h
    simp only [gaLoop] at h
    injection h with h'
    rw [← h']
    simp
  | succ k ih =>
    intro st st' h
    simp only [gaLoop] at h
    split at h
    · exact (Except.noConfusion h)
    · next st₁ heq =>
      obtain ⟨b, rest, tail, _, _, _, hhist⟩ := gaStep_ok_spec cfg cons f st st₁ heq
      have := ih st₁ st' h
      rw [this, hhist]
      simp
      omega

/-- C9: whenever `optimize` returns a summary for a run with
`generations = G`, its `fitness_history` has length exactly `G` (one
best-fitness entry per generation) and its `generations` field equals `G`. -/
theorem C9_history_length {σ : Type _} (cfg : GAConfig)
    (f : SignalTiming → ℚ × σ) (initial : SignalTiming)
    (cons : Option Constraints) (w : World)
    (r : SignalTiming × OptimizationResults σ)
    (h : optimize cfg f initial cons w = .ok r) :
    r.2.fitness_history.length = cfg.generations ∧
      r.2.generations = cfg.generations := by
  simp only [optimize] at h
  split at h
  · exact (Except.noConfusion h)
  · next st heq =>
    split at h
    · exact (Except.noConfusion h)
    · next best hbest =>
      have hlen := gaLoop_ok_length cfg (cons.getD get_default_constraints) f
        cfg.generations _ st heq
      injection h with h'
      rw [← h']
      simpa using hlen

/-- C9 witness: a concrete population-3, one-generation run returns a
one-entry history and `generations = 1`. -/
theorem C9_history_length_witness :
    ((stdTiming, (⟨0, [0], 1, 3, some ()⟩ : OptimizationResults Unit)).2.fitness_history.length =
      cfg3g1.generations) ∧
    ((stdTiming, (⟨0, [0], 1, 3, some ()⟩ : OptimizationResults Unit)).2.generations =
      cfg3g1.generations) :=
  C9_history_length cfg3g1 constEval stdTiming none world0
    (stdTiming, ⟨0, [0], 1, 3, some ()⟩) (by with_unfolding_all decide)

lemma sortPop_perm {σ : Type _} (l : List (Individual σ)) :
    (sortPop l).Perm l :=
  List.mergeSort_perm l _

lemma sortPop_head_max {σ : Type _} (l : List (Individual σ))
    (b : Individual σ) (rest : List (Individual σ))
    (h : sortPop l = b :: rest) : ∀ x ∈ l, x.fitness ≤ b.fitness := by
  have hp := @List.sorted_mergeSort (Individual σ)
    (fun a c : Individual σ => decide (c.fitness ≤ a.fitness))
    (fun a c d h1 h2 => by
      simp only [decide_eq_true_eq] at h1 h2 ⊢
      exact le_trans h2 h1)
    (fun a c => by
      simp only [Bool.or_eq_true, decide_eq_true_eq]
      exact le_total c.fitness a.fitness)
    l
  rw [show l.mergeSort (fun a c : Individual σ => decide (c.fitness ≤ a.fitness)) =
      sortPop l from rfl, h, List.pairwise_cons] at hp
  intro x hx
  have hx' : x ∈ b :: rest := by
    rw [← h]
    exact (sortPop_perm l).mem_iff.mpr hx
  rcases List.mem_cons.mp hx' with rfl | hx2
  · exact le_refl _
  · have := hp.1 x hx2
    simpa using this

lemma evaluate_population_evaluated {σ : Type _} (f : SignalTiming → ℚ × σ)
    (population : List (Individual σ)) :
    evaluated_pop f (evaluate_population f population) := by
  intro ind hind
  obtain ⟨x, _, rfl⟩ := List.mem_map.mp hind
  rfl

lemma gaStep_mono {σ : Type _} (cfg : GAConfig) (cons : Constraints)
    (f : SignalTiming → ℚ × σ) (st st' : GAState σ)
    (hel : 1 ≤ cfg.elitism_count) (hpop : st.population ≠ [])
    (hev : evaluated_pop f st.population)
    (h : gaStep cfg cons f st = .ok st') :
    st'.population ≠ [] ∧ evaluated_pop f st'.population ∧
    ∃ b : ℚ, st'.fitness_history = st.fitness_history ++ [b] ∧
      (∀ x ∈ st.population, x.fitness ≤ b) ∧
      (∃ y ∈ st'.population, b ≤ y.fitness) := by
  obtain ⟨best, rest, tail, heq, hpop', hbest, hhist⟩ :=
    gaStep_ok_spec cfg cons f st st' h
  have hsortne : sortPop st.population ≠ [] := by
    intro h0
    have hlen := (sortPop_perm st.population).length_eq
    rw [h0] at hlen
    exact hpop (List.eq_nil_of_length_eq_zero hlen.symm)
  obtain ⟨b₀, t₀, hs⟩ : ∃ b₀ t₀, sortPop st.population = b₀ :: t₀ := by
    cases hsp : sortPop st.population with
    | nil => exact absurd hsp hsortne
    | cons a l => exact ⟨a, l, rfl⟩
  have hb₀mem : b₀ ∈ st.population :=
    (sortPop_perm st.population).mem_iff.mp (hs ▸ List.mem_cons_self b₀ t₀)
  have hb₀max := sortPop_head_max st.population b₀ t₀ hs
  obtain ⟨m, hm⟩ : ∃ m, cfg.elitism_count = m + 1 :=
    ⟨cfg.elitism_count - 1, by omega⟩
  have helite : b₀ ∈ (sortPop st.population).take cfg.elitism_count := by
    rw [hs, hm, List.take_succ_cons]
    exact List.mem_cons_self _ _
  have hevalmem : evalIndividual f b₀ ∈ evaluate_population f
      ((sortPop st.population).take cfg.elitism_count ++ tail) :=
    List.mem_map_of_mem _ (List.mem_append_left _ helite)
  have hle : (evalIndividual f b₀).fitness ≤ best.fitness :=
    sortPop_head_max _ best rest heq _ hevalmem
  have hfit : (evalIndividual f b₀).fitness = b₀.fitness := (hev b₀ hb₀mem).symm
  refine ⟨?_, ?_, best.fitness, hhist, ?_, ⟨best, ?_, le_refl _⟩⟩
  · rw [hpop']
    exact List.cons_ne_nil _ _
  · intro ind hind
    have hind' : ind ∈ evaluate_population f
        ((sortPop st.population).take cfg.elitism_count ++ tail) := by
      apply (sortPop_perm _).mem_iff.mp
      rw [heq]
      rw [hpop'] at hind
      exact hind
    exact evaluate_population_evaluated f _ ind hind'
  · intro x hx
    calc x.fitness ≤ b₀.fitness := hb₀max x hx
      _ = (evalIndividual f b₀).fitness := hfit.symm
      _ ≤ best.fitness := hle
  · rw [hpop']
    exact List.mem_cons_self _ _

lemma gaLoop_mono {σ : Type _} (cfg : GAConfig) (cons : Constraints)
    (f : SignalTiming → ℚ × σ) (hel : 1 ≤ cfg.elitism_count) :
    ∀ (n : ℕ) (st st' : GAState σ),
      gaLoop cfg cons f n st = .ok st' →
      st.population ≠ [] → evaluated_pop f st.population →
      List.Chain' (· ≤ ·) st.fitness_history →
      (∀ h ∈ st.fitness_history.getLast?, ∃ y ∈ st.population, h ≤ y.fitness) →
      List.Chain' (· ≤ ·) st'.fitness_history := by
  intro n
  induction n with
  | zero =>
    intro st st' h _ _ hch _
    simp only [gaLoop] at h
    injection h with h'
    rw [← h']
    exact hch
  | succ k ih =>
    intro st st' h hp hev hch hlast
    simp only [gaLoop] at h
    split at h
    · exact (Except.noConfusion h)
    · next st₁ heq =>
      obtain ⟨hp₁, hev₁, b, hhist, hmax, hy⟩ :=
        gaStep_mono cfg cons f st st₁ hel hp hev heq
      have hch₁ : List.Chain' (· ≤ ·) st₁.fitness_history := by
        rw [hhist, List.chain'_append]
        refine ⟨hch, List.chain'_singleton b, ?_⟩
        intro x hx y hy'
        simp only [List.head?_cons, Option.mem_def, Option.some.injEq] at hy'
        subst hy'
        obtain ⟨z, hz, hxz⟩ := hlast x hx
        exact le_trans hxz (hmax z hz)
      have hlast₁ : ∀ hh ∈ st₁.fitness_history.getLast?,
          ∃ y ∈ st₁.population, hh ≤ y.fitness := by
        intro hh hmem
        rw [hhist, List.getLast?_concat] at hmem
        simp only [Option.mem_def, Option.some.injEq] at hmem
        subst hmem
        exact hy
      exact ih st₁ st' h hp₁ hev₁ hch₁ hlast₁

lemma chain'_le_get (l : List ℚ) (hl : List.Chain' (· ≤ ·) l) (i : ℕ)
    (hi : i + 1 < l.length) :
    l.get ⟨i, Nat.lt_of_succ_lt hi⟩ ≤ l.get ⟨i + 1, hi⟩ :=
  List.chain'_iff_get.mp hl i (by omega)

/-- C3: with `elitism_count ≥ 1` and any total evaluation function, every
summary `optimize` returns has a non-decreasing `fitness_history`: the
elites (including the previous best, whose re-evaluation reproduces its
fitness) survive into each next generation, so each recorded best fitness
is at least the previous one. -/
theorem C3_elitism_monotone {σ : Type _} (cfg : GAConfig)
    (f : SignalTiming → ℚ × σ) (initial : SignalTiming)
    (cons : Option Constraints) (w : World)
    (hel : 1 ≤ cfg.elitism_count)
    (r : SignalTiming × OptimizationResults σ)
    (h : optimize cfg f initial cons w = .ok r)
    (i : ℕ) (hi : i + 1 < r.2.fitness_history.length) :
    r.2.fitness_history.get ⟨i, Nat.lt_of_succ_lt hi⟩ ≤
      r.2.fitness_history.get ⟨i + 1, hi⟩ := by
  simp only [optimize] at h
  split at h
  · exact (Except.noConfusion h)
  · next st heq =>
    split at h
    · exact (Except.noConfusion h)
    · next best hbest =>
      have hch : List.Chain' (· ≤ ·) st.fitness_history := by
        apply gaLoop_mono cfg (cons.getD get_default_constraints) f hel
          cfg.generations _ st heq
        · exact List.cons_ne_nil _ _
        · exact evaluate_population_evaluated f _
        · exact List.chain'_nil
        · simp
      injection h with h'
      subst h'
      exact chain'_le_get st.fitness_history hch i hi

/-- C3 witness: a concrete population-3, two-generation, elitism-2 run has
history `[0, 0]` and the consecutive entries are ordered. -/
theorem C3_elitism_monotone_witness :
    (1 ≤ cfg3g2.elitism_count) ∧
    (((stdTiming, (⟨0, [0, 0], 2, 3, some ()⟩ :
        OptimizationResults Unit))).2.fitness_history.get
          ⟨0, by with_unfolding_all decide⟩ ≤
      ((stdTiming, (⟨0, [0, 0], 2, 3, some ()⟩ :
        OptimizationResults Unit))).2.fitness_history.get
          ⟨1, by with_unfolding_all decide⟩) :=
  ⟨by with_unfolding_all decide,
    C3_elitism_monotone cfg3g2 constEval stdTiming none world0
      (by with_unfolding_all decide)
      (stdTiming, ⟨0, [0, 0], 2, 3, some ()⟩)
      (by with_unfolding_all decide) 0 (by with_unfolding_all decide)⟩

lemma normalize_cycle (t : SignalTiming) :
    (normalize_green_times t).cycle_length = t.cycle_length := rfl

lemma pyInt_bounds (lo hi : ℤ) (q : ℚ) (h0 : 0 ≤ (lo : ℚ))
    (h1 : (lo : ℚ) ≤ q) (h2 : q ≤ (hi : ℚ)) :
    lo ≤ pyInt q ∧ pyInt q ≤ hi := by
  have hq : 0 ≤ q := le_trans h0 h1
  unfold pyInt
  rw [if_pos hq]
  constructor
  · exact Int.le_floor.mpr h1
  · have hf : ((⌊q⌋ : ℤ) : ℚ) ≤ (hi : ℚ) := le_trans (Int.floor_le q) h2
    exact_mod_cast hf

lemma pyInt_clip_bounds (x : ℚ) :
    45 ≤ pyInt (min (max x 45) 120) ∧ pyInt (min (max x 45) 120) ≤ 120 := by
  have h1 : (45 : ℚ) ≤ min (max x 45) 120 :=
    le_min (le_max_right _ _) (by norm_num)
  have h2 : min (max x 45) 120 ≤ (120 : ℚ) := min_le_right _ _
  exact pyInt_bounds 45 120 (min (max x 45) 120) (by norm_num)
    (by exact_mod_cast h1) (by exact_mod_cast h2)

lemma mutate_cycle {σ : Type _} (ind : Individual σ) (pyRng npRng : Rng)
    (h : cycle_in_bounds ind.signal_timing) :
    cycle_in_bounds
      (mutate ind get_default_constraints pyRng npRng).1.signal_timing := by
  simp only [mutate]
  cases hgp : parameters.getD ((pyRng.below 5).1) Param.green_west with
  | cycle_length =>
    simp only [paramBounds, get_default_constraints, paramSet,
      cycle_in_bounds, normalize_cycle]
    push_cast
    exact pyInt_clip_bounds _
  | green_north => simpa [cycle_in_bounds, paramSet] using h
  | green_south => simpa [cycle_in_bounds, paramSet] using h
  | green_east => simpa [cycle_in_bounds, paramSet] using h
  | green_west => simpa [cycle_in_bounds, paramSet] using h

lemma crossoverStep_cycle {σ : Type _} (P₁ P₂ : Individual σ)
    (acc : SignalTiming × SignalTiming × Rng) (p : Param)
    (h₁ : cycle_in_bounds P₁.signal_timing)
    (h₂ : cycle_in_bounds P₂.signal_timing)
    (ha : cycle_in_bounds acc.1) (hb : cycle_in_bounds acc.2.1) :
    cycle_in_bounds (crossoverStep P₁ P₂ acc p).1 ∧
      cycle_in_bounds (crossoverStep P₁ P₂ acc p).2.1 := by
  cases p <;> simp only [crossoverStep, copyParam] <;> split_ifs <;>
    exact ⟨by assumption, by assumption⟩

lemma crossoverFold_cycle {σ : Type _} (P₁ P₂ : Individual σ)
    (h₁ : cycle_in_bounds P₁.signal_timing)
    (h₂ : cycle_in_bounds P₂.signal_timing) :
    ∀ (ps : List Param) (acc : SignalTiming × SignalTiming × Rng),
      cycle_in_bounds acc.1 → cycle_in_bounds acc.2.1 →
      cycle_in_bounds (ps.foldl (crossoverStep P₁ P₂) acc).1 ∧
        cycle_in_bounds (ps.foldl (crossoverStep P₁ P₂) acc).2.1 := by
  intro ps
  induction ps with
  | nil => intro acc ha hb; exact ⟨ha, hb⟩
  | cons p rest ih =>
    intro acc ha hb
    rw [List.foldl_cons]
    obtain ⟨ha', hb'⟩ := crossoverStep_cycle P₁ P₂ acc p h₁ h₂ ha hb
    exact ih _ ha' hb'

lemma initPopAux_cycle {σ : Type _} (initial : SignalTiming) :
    ∀ (n : ℕ) (rng : Rng) (x : Individual σ),
      x ∈ (initPopAux (σ := σ) initial get_default_constraints n rng).1 →
      cycle_in_bounds x.signal_timing := by
  intro n
  induction n with
  | zero => intro rng x hx; simp [initPopAux] at hx
  | succ k ih =>
    intro rng x hx
    simp only [initPopAux, Rng.randint, Rng.uniform, Rng.nextUnit, Rng.next,
      get_default_constraints] at hx
    rcases List.mem_cons.mp hx with rfl | hx2
    · simp only [cycle_in_bounds, normalize_cycle]
      have h76 : ((120 : ℤ) - 45 + 1).toNat = 76 := by decide
      simp only [h76]
      constructor <;> omega
    · exact ih _ x hx2

/-- C6: under the default constraints, starting from an initial timing whose
(integer) cycle length lies in `[45, 120]`, every individual produced by
population initialization, crossover, mutation, or normalization again has
an integer cycle length in `[45, 120]` (initialization draws
`randint(45, 120)`, the initial copy keeps its value, crossover only swaps
parental values, mutation clips to the bounds before `int` truncation, and
normalization never touches the cycle length). -/
theorem C6_cycle_invariant {σ : Type _} (population_size : ℕ)
    (initial : SignalTiming) (r₁ r₂ r₃ r₄ : Rng) (P₁ P₂ M : Individual σ)
    (x : Individual σ)
    (hinit : cycle_in_bounds initial)
    (h₁ : cycle_in_bounds P₁.signal_timing)
    (h₂ : cycle_in_bounds P₂.signal_timing)
    (hM : cycle_in_bounds M.signal_timing)
    (hx : x ∈ (init_population (σ := σ) population_size initial
      get_default_constraints r₁).1) :
    cycle_in_bounds x.signal_timing ∧
    cycle_in_bounds (crossover P₁ P₂ r₂).1.1.signal_timing ∧
    cycle_in_bounds (crossover P₁ P₂ r₂).1.2.signal_timing ∧
    cycle_in_bounds (mutate M get_default_constraints r₃ r₄).1.signal_timing ∧
    (normalize_green_times M.signal_timing).cycle_length =
      M.signal_timing.cycle_length := by
  refine ⟨?_, ?_, ?_, mutate_cycle M r₃ r₄ hM, normalize_cycle _⟩
  · rcases List.mem_cons.mp hx with rfl | hx2
    · exact hinit
    · exact initPopAux_cycle initial _ r₁ x hx2
  · have := (crossoverFold_cycle P₁ P₂ h₁ h₂ parameters
      (P₁.signal_timing, P₂.signal_timing, r₂) h₁ h₂).1
    simpa [crossover, cycle_in_bounds, normalize_cycle] using this
  · have := (crossoverFold_cycle P₁ P₂ h₁ h₂ parameters
      (P₁.signal_timing, P₂.signal_timing, r₂) h₁ h₂).2
    simpa [crossover, cycle_in_bounds, normalize_cycle] using this

/-- C6 witness: applying the invariant to concrete individuals and the first
member of a concrete initial population. -/
theorem C6_cycle_invariant_witness :
    cycle_in_bounds stdTiming ∧
    (cycle_in_bounds
        ((⟨stdTiming, 0, none⟩ : Individual Unit)).signal_timing ∧
      cycle_in_bounds
        (crossover (⟨stdTiming, 0, none⟩ : Individual Unit)
          ⟨wideTiming, 0, none⟩ (constRng 1)).1.1.signal_timing ∧
      cycle_in_bounds
        (crossover (⟨stdTiming, 0, none⟩ : Individual Unit)
          ⟨wideTiming, 0, none⟩ (constRng 1)).1.2.signal_timing ∧
      cycle_in_bounds
        (mutate (⟨wideTiming, 0, none⟩ : Individual Unit)
          get_default_constraints (constRng 2) (constRng 3)).1.signal_timing ∧
      (normalize_green_times
          (⟨wideTiming, 0, none⟩ : Individual Unit).signal_timing).cycle_length =
        (⟨wideTiming, 0, none⟩ : Individual Unit).signal_timing.cycle_length) :=
  ⟨by with_unfolding_all decide,
    C6_cycle_invariant 3 stdTiming (constRng 0) (constRng 1) (constRng 2)
      (constRng 3) ⟨stdTiming, 0, none⟩ ⟨wideTiming, 0, none⟩
      ⟨wideTiming, 0, none⟩ ⟨stdTiming, 0, none⟩
      (by with_unfolding_all decide) (by with_unfolding_all decide)
      (by with_unfolding_all decide) (by with_unfolding_all decide)
      (by with_unfolding_all decide)⟩

end TrafficOpt
